import Mathlib

/-
Verification of the edge-probing implementation in
src/probing-tasks/replicate/edge_probing.py.

The development shallowly embeds the parts of the program that the
verified properties are about:

* the per-class precision / recall / F1 aggregation of
  test_single_span (lines 296-321) and test_two_span (lines 342-367);
* the training loop of train_single_span (lines 107-157) and
  train_two_span (lines 171-223): epoch iteration, periodic evaluation,
  early stopping and learning-rate halving;
* the span-to-token alignment of tokenize_jiant_dataset
  (lines 483-559);
* the per-layer sweep and results persistence of probing
  (lines 369-458).

Real numbers (Python floats) are modelled by rationals.  Python code
that can raise at runtime (division by zero, tensor shape mismatch) is
modelled with Option: none stands for the raised exception.  Opaque ML
components (the transformer model, the loss function, the subword
tokenizer) enter as parameters: the model output of a test batch is
abstracted to the argmax class it induces, the sequence of validation
losses observed by the training loop is a function from the evaluation
index to the loss, and the tokenizer is a function giving the token
ids of each sample together with the word-to-token boundary lookup of
the returned BatchEncoding.
-/

/-! ### Metrics of test_single_span / test_two_span

A test batch is abstracted to the list of (predicted class, target
class) pairs it contributes: in the source, preds = argmax(output)
and targets_max = argmax(targets) (lines 309-310 and 355-356). -/

/-- Number of samples of a batch predicted as class id
(torch.sum(preds == id), line 312 / 358). -/
def countPred (batch : List (ℕ × ℕ)) (id : ℕ) : ℕ :=
  (batch.filter (fun pt => pt.1 == id)).length

/-- Number of samples of a batch whose target is class id
(torch.sum(targets_max == id), line 313 / 359). -/
def countTarget (batch : List (ℕ × ℕ)) (id : ℕ) : ℕ :=
  (batch.filter (fun pt => pt.2 == id)).length

/-- Number of samples of a batch predicted correctly as class id
(torch.sum((preds == id) * (targets_max == id)), line 314 / 360). -/
def countCorrect (batch : List (ℕ × ℕ)) (id : ℕ) : ℕ :=
  (batch.filter (fun pt => pt.1 == id && pt.2 == id)).length

/-- preds_sum[id] accumulated over the batch loop (lines 305-315). -/
def predsSum (batches : List (List (ℕ × ℕ))) (id : ℕ) : ℕ :=
  batches.foldl (fun a b => a + countPred b id) 0

/-- targets_sum[id] accumulated over the batch loop. -/
def targetsSum (batches : List (List (ℕ × ℕ))) (id : ℕ) : ℕ :=
  batches.foldl (fun a b => a + countTarget b id) 0

/-- preds_correct_sum[id] accumulated over the batch loop. -/
def predsCorrectSum (batches : List (List (ℕ × ℕ))) (id : ℕ) : ℕ :=
  batches.foldl (fun a b => a + countCorrect b id) 0

/-- Macro metrics of test_single_span, lines 316-321.  The result is
(macro precision, macro recall, macro F1).  none models the Python
ZeroDivisionError that is raised when ids is empty (division by
len(ids)) or when macro precision + macro recall is zero (the
unguarded division of line 320). -/
def test_single_span_metrics (ids : List ℕ) (batches : List (List (ℕ × ℕ))) :
    Option (ℚ × ℚ × ℚ) :=
  if ids.length = 0 then none else
  let precs : List ℚ := ids.map (fun id =>
    if predsSum batches id ≠ 0 then
      (predsCorrectSum batches id : ℚ) / (predsSum batches id : ℚ) else 0)
  let recs : List ℚ := ids.map (fun id =>
    if targetsSum batches id ≠ 0 then
      (predsCorrectSum batches id : ℚ) / (targetsSum batches id : ℚ) else 0)
  let p : ℚ := precs.sum / (ids.length : ℚ)
  let r : ℚ := recs.sum / (ids.length : ℚ)
  if p + r = 0 then none else some (p, r, 2 * (p * r) / (p + r))

/-- Macro metrics of test_two_span, lines 362-367.  The source
duplicates the aggregation code of test_single_span verbatim. -/
def test_two_span_metrics (ids : List ℕ) (batches : List (List (ℕ × ℕ))) :
    Option (ℚ × ℚ × ℚ) :=
  if ids.length = 0 then none else
  let precs : List ℚ := ids.map (fun id =>
    if predsSum batches id ≠ 0 then
      (predsCorrectSum batches id : ℚ) / (predsSum batches id : ℚ) else 0)
  let recs : List ℚ := ids.map (fun id =>
    if targetsSum batches id ≠ 0 then
      (predsCorrectSum batches id : ℚ) / (targetsSum batches id : ℚ) else 0)
  let p : ℚ := precs.sum / (ids.length : ℚ)
  let r : ℚ := recs.sum / (ids.length : ℚ)
  if p + r = 0 then none else some (p, r, 2 * (p * r) / (p + r))

/-! Spec-side formulation of the metrics, for the refinement claim:
per-class counts over the flat test set (the concatenation of all
batches), per-class precision = correct/predicted with 0 for an empty
denominator, per-class recall = correct/actual likewise, and the
averages are unweighted means over exactly the given label ids. -/

/-- Modelled from the spec: per-class precision = correct/predicted
(0 if the predicted count is 0), over the flat list of
(prediction, target) pairs. -/
def specPrecision (pairs : List (ℕ × ℕ)) (id : ℕ) : ℚ :=
  if countPred pairs id = 0 then 0
  else (countCorrect pairs id : ℚ) / (countPred pairs id : ℚ)

/-- Modelled from the spec: per-class recall = correct/actual
(0 if the actual count is 0). -/
def specRecall (pairs : List (ℕ × ℕ)) (id : ℕ) : ℚ :=
  if countTarget pairs id = 0 then 0
  else (countCorrect pairs id : ℚ) / (countTarget pairs id : ℚ)

/-- Modelled from the spec: macro precision is the unweighted mean of
the per-class precisions over exactly the given label ids. -/
def specAvgPrecision (ids : List ℕ) (pairs : List (ℕ × ℕ)) : ℚ :=
  ((ids.map (specPrecision pairs)).sum) / (ids.length : ℚ)

/-- Modelled from the spec: macro recall is the unweighted mean of the
per-class recalls over exactly the given label ids. -/
def specAvgRecall (ids : List ℕ) (pairs : List (ℕ × ℕ)) : ℚ :=
  ((ids.map (specRecall pairs)).sum) / (ids.length : ℚ)

/-! ### Training loop of train_single_span / train_two_span

The two trainers have identical control flow (the two-span variant
only adds a progress print, line 206, and feeds two span masks to the
opaque model); one embedding models both.  The validation losses
returned by eval_single_span / eval_two_span are abstracted to a
function from the 0-based evaluation index to the observed loss. -/

/-- Training parameters of TrainConfig used by the loop
(lines 51-55). -/
structure TrainCfg where
  lr0 : ℚ
  maxEvals : Option ℕ
  patienceLr : ℕ
  patience : ℕ
  evalInterval : ℕ
deriving DecidableEq, Repr

/-- Mutable loop state: the local variables lr, eval, counter and
min_loss of train_single_span (lines 108-110, 135).  min_loss is
unread before the first evaluation overwrites it (line 134-135); it is
initialised to 0 here.  lr mirrors both the local variable and the
learning rate stored in the live optimizer parameter groups, which the
source keeps in sync (lines 147-150). -/
structure TrainState where
  lr : ℚ
  evalN : ℕ
  counter : ℕ
  minLoss : ℚ
deriving DecidableEq, Repr

/-- Condition of line 142: config.max_evals is not None and
eval >= config.max_evals. -/
def maxReached (cfg : TrainCfg) (e : ℕ) : Bool :=
  match cfg.maxEvals with
  | some me => decide (me ≤ e)
  | none => false

/-- One evaluation step, lines 129-150: obtain the validation loss,
update min_loss and the non-improvement counter, then run the ordered
stop checks; the Bool is true when the inner loop breaks (training
stops).  The learning rate is halved only in the final elif branch
(lines 146-150). -/
def evalStep (cfg : TrainCfg) (losses : ℕ → ℚ) (s : TrainState) :
    TrainState × Bool :=
  let loss := losses s.evalN
  let e := s.evalN + 1
  let m0 := if e = 1 then loss else s.minLoss
  let mL := if loss < m0 then loss else m0
  let c := if loss < m0 then 0 else s.counter + 1
  if maxReached cfg e then (⟨s.lr, e, c, mL⟩, true)
  else if cfg.patience ≤ c then (⟨s.lr, e, c, mL⟩, true)
  else if c % cfg.patienceLr = 0 ∧ 0 < c then (⟨s.lr / 2, e, c, mL⟩, false)
  else (⟨s.lr, e, c, mL⟩, false)

/-- Result of one epoch (one pass of the for loop of line 117):
the state, the value the batch index would take next, whether the
inner loop broke, and the cumulative batch numbers (1-based, carried
across epochs) at which evaluations were triggered. -/
structure EpochOut where
  st : TrainState
  nextIdx : ℕ
  broke : Bool
  evalAts : List ℕ
deriving DecidableEq, Repr

/-- One epoch, lines 117-150: b batches remain, the current batch has
enumerate index i (enumerate(loop, start_index)), and total batches
were processed before it in the whole run.  An evaluation fires when
i % eval_interval == 0 (line 128). -/
def runEpoch (cfg : TrainCfg) (losses : ℕ → ℚ) :
    ℕ → ℕ → ℕ → TrainState → EpochOut
  | 0, i, _, s => ⟨s, i, false, []⟩
  | b + 1, i, total, s =>
    if i % cfg.evalInterval = 0 then
      let r := evalStep cfg losses s
      if r.2 then ⟨r.1, i, true, [total + 1]⟩
      else
        let out := runEpoch cfg losses b (i + 1) (total + 1) r.1
        ⟨out.st, out.nextIdx, out.broke, (total + 1) :: out.evalAts⟩
    else runEpoch cfg losses b (i + 1) (total + 1) s

/-- The while True loop of lines 113-156, with B batches per epoch.
After an epoch completes without break, the next epoch enumerates from
start_index = i % eval_interval where i is the last batch index of the
finished epoch (line 153); here i = nextIdx - 1.  The loop is not
structurally terminating, so it is run on epoch fuel; none models a
run that has not stopped within the given number of epochs. -/
def runTrain (cfg : TrainCfg) (losses : ℕ → ℚ) (B : ℕ) :
    ℕ → ℕ → ℕ → TrainState → Option (TrainState × List ℕ)
  | 0, _, _, _ => none
  | fuel + 1, sIdx, total, s =>
    let out := runEpoch cfg losses B sIdx total s
    if out.broke then some (out.st, out.evalAts)
    else
      match runTrain cfg losses B fuel ((out.nextIdx - 1) % cfg.evalInterval)
          (total + B) out.st with
      | none => none
      | some (st', ats) => some (st', out.evalAts ++ ats)

/-- train_single_span (lines 95-157): lr = config.lr, eval = 0,
counter = 0, start_index = 1, then the epoch loop. -/
def trainSingleSpan (cfg : TrainCfg) (losses : ℕ → ℚ) (B fuel : ℕ) :
    Option (TrainState × List ℕ) :=
  runTrain cfg losses B fuel 1 0 ⟨cfg.lr0, 0, 0, 0⟩

/-- train_two_span (lines 159-223): identical control flow. -/
def trainTwoSpan (cfg : TrainCfg) (losses : ℕ → ℚ) (B fuel : ℕ) :
    Option (TrainState × List ℕ) :=
  runTrain cfg losses B fuel 1 0 ⟨cfg.lr0, 0, 0, 0⟩

/-- The run stops after finitely many epochs. -/
def trainTerminates (cfg : TrainCfg) (losses : ℕ → ℚ) (B : ℕ) : Prop :=
  ∃ fuel out, trainSingleSpan cfg losses B fuel = some out

/-- The state transformation of a single evaluation, ignoring the stop
flag: the trajectory of the evaluation-related state over successive
evaluations. -/
def nextES (cfg : TrainCfg) (losses : ℕ → ℚ) (s : TrainState) : TrainState :=
  (evalStep cfg losses s).1

/-! ### Span alignment of tokenize_jiant_dataset

The subword tokenizer is opaque; it enters as the per-sample token id
lists produced by tokenizer(texts, max_length=128, truncation=True,
padding="max_length") (line 497) and as the word-to-token boundary
table of the returned BatchEncoding.  The table w2t takes a batch
index and a word index and returns the (start, end) token span of
that word, or none when the word has no covering tokens.  Labels are
abstracted to their numeric id labels_to_ids[labels[i]]. -/

/-- Mask tensor of lines 541-543 (and 526-528): a boolean vector over
the configured fixed length that is true at position p iff
start <= p < stop, built as the pointwise minimum of the two
comparison masks on torch.arange(max_seq_length). -/
def spanMask (msl s e : ℕ) : List Bool :=
  (List.range msl).map (fun p => decide (s ≤ p) && decide (p < e))

/-- Lines 506-507: target = torch.zeros(max_seq_length) followed by
target[:tokens.shape[0]] = tokens.  The slice on the left has length
min(tokens.shape[0], max_seq_length), so the assignment raises a
RuntimeError (modelled as none) when the token sequence is longer
than max_seq_length. -/
def padTarget (msl : ℕ) (tokens : List ℕ) : Option (List ℕ) :=
  if tokens.length ≤ msl then
    some (tokens ++ List.replicate (msl - tokens.length) 0)
  else none

/-- The padded vector produced by lines 506-507 in the non-raising
case. -/
def padVec (msl : ℕ) (tokens : List ℕ) : List ℕ :=
  tokens ++ List.replicate (msl - tokens.length) 0

/-- One-hot label tensor of lines 545-547. -/
def labelOneHot (numLabels labelId : ℕ) : List ℕ :=
  (List.range numLabels).map (fun k => if labelId = k then 1 else 0)

/-- The call encodings.word_to_tokens(w) of lines 515-518 and 532-533.
The transformers BatchEncoding API treats a single argument as the
word index in the sequence at batch index 0, so the lookup always
consults the tokenization of sample 0. -/
def wordToTokensApi (w2t : ℕ → ℕ → Option (ℕ × ℕ)) (w : ℕ) :
    Option (ℕ × ℕ) :=
  w2t 0 w

/-- Span resolution of lines 513-537: look up both boundary words of
span1 (and of span2 when the dataset has span2s), fail when any
lookup is None, and otherwise keep the start of the first lookup and
the end of the second (span1_start, _ = spans[0]; _, span1_end =
spans[1], and likewise for span2). -/
def resolveSpans (w2t : ℕ → ℕ → Option (ℕ × ℕ)) (span1 span2 : ℕ × ℕ) :
    Bool → Option (ℕ × ℕ × Option (ℕ × ℕ))
  | true =>
    match wordToTokensApi w2t span1.1, wordToTokensApi w2t span1.2,
        wordToTokensApi w2t span2.1, wordToTokensApi w2t span2.2 with
    | some a, some b, some c, some d => some (a.1, b.2, some (c.1, d.2))
    | _, _, _, _ => none
  | false =>
    match wordToTokensApi w2t span1.1, wordToTokensApi w2t span1.2 with
    | some a, some b => some (a.1, b.2, none)
    | _, _ => none

/-- The four output sequences built by the loop of lines 504-551 and
returned through encodings.update (lines 553-558). -/
structure TokOut where
  input_ids : List (List ℕ)
  span1_masks : List (List Bool)
  span2_masks : List (List Bool)
  labels : List (List ℕ)
deriving DecidableEq, Repr

/-- The loop of lines 504-551 over the given sample indices: pad the
token sequence (raising on a length mismatch), resolve the spans and
silently skip the sample when resolution fails, and otherwise append
the padded ids, the span mask(s) and the one-hot label. -/
def tokenizeLoop (msl : ℕ) (toks : ℕ → List ℕ)
    (w2t : ℕ → ℕ → Option (ℕ × ℕ)) (span1s span2s : ℕ → ℕ × ℕ)
    (hasSpan2 : Bool) (labelIds : ℕ → ℕ) (numLabels : ℕ) :
    List ℕ → Option TokOut
  | [] => some ⟨[], [], [], []⟩
  | i :: rest =>
    match padTarget msl (toks i) with
    | none => none
    | some target =>
      match resolveSpans w2t (span1s i) (span2s i) hasSpan2 with
      | none => tokenizeLoop msl toks w2t span1s span2s hasSpan2 labelIds
          numLabels rest
      | some (s1, e1, sp2) =>
        match tokenizeLoop msl toks w2t span1s span2s hasSpan2 labelIds
            numLabels rest with
        | none => none
        | some out =>
          some ⟨target :: out.input_ids,
                spanMask msl s1 e1 :: out.span1_masks,
                (match sp2 with
                 | some se => spanMask msl se.1 se.2 :: out.span2_masks
                 | none => out.span2_masks),
                labelOneHot numLabels (labelIds i) :: out.labels⟩

/-- tokenize_jiant_dataset (lines 483-559) on a dataset of n samples.
The tokenizer call of line 497 hard-codes max_length=128 regardless of
the max_seq_length parameter msl; its output enters through toks. -/
def tokenize_jiant_dataset (msl n : ℕ) (toks : ℕ → List ℕ)
    (w2t : ℕ → ℕ → Option (ℕ × ℕ)) (span1s span2s : ℕ → ℕ × ℕ)
    (hasSpan2 : Bool) (labelIds : ℕ → ℕ) (numLabels : ℕ) : Option TokOut :=
  tokenizeLoop msl toks w2t span1s span2s hasSpan2 labelIds numLabels
    (List.range n)

/-- Sample i survives the alignment iff its span resolution
succeeds. -/
def keepSample (w2t : ℕ → ℕ → Option (ℕ × ℕ)) (span1s span2s : ℕ → ℕ × ℕ)
    (hasSpan2 : Bool) (i : ℕ) : Bool :=
  (resolveSpans w2t (span1s i) (span2s i) hasSpan2).isSome

/-- The resolved boundaries of a retained sample. -/
def resolvedOf (w2t : ℕ → ℕ → Option (ℕ × ℕ)) (span1s span2s : ℕ → ℕ × ℕ)
    (hasSpan2 : Bool) (i : ℕ) : ℕ × ℕ × Option (ℕ × ℕ) :=
  (resolveSpans w2t (span1s i) (span2s i) hasSpan2).getD (0, 0, none)

/-- Modelled from the spec: span1 boundary resolution for sample i
under the subword tokenization of sample i itself (batch index i),
as the specification describes the alignment. -/
def resolveSpanOwn (w2t : ℕ → ℕ → Option (ℕ × ℕ)) (i : ℕ)
    (span1 : ℕ × ℕ) : Option (ℕ × ℕ) :=
  match w2t i span1.1, w2t i span1.2 with
  | some a, some b => some (a.1, b.2)
  | _, _ => none

/-! ### Per-layer sweep of probing

Training and testing of one probe layer are opaque (they involve the
pretrained transformer); the metrics a layer obtains enter as a
function from the layer to its (loss, accuracy, f1_score) triple.
The model of the sweep keeps the results dict and the persisted file
content; the file is rewritten from scratch each iteration because the
source opens it with mode "w" (line 456). -/

/-- A Python dict assignment results[layer] = v on an
insertion-ordered association list. -/
def dictInsert (rs : List (ℕ × (ℚ × ℚ × ℚ))) (k : ℕ) (v : ℚ × ℚ × ℚ) :
    List (ℕ × (ℚ × ℚ × ℚ)) :=
  if rs.any (fun p => p.1 == k) then
    rs.map (fun p => if p.1 == k then (k, v) else p)
  else rs ++ [(k, v)]

/-- Results dict and persisted results.json content (none when the
file has not been written). -/
structure SweepState where
  results : List (ℕ × (ℚ × ℚ × ℚ))
  file : Option (List (ℕ × (ℚ × ℚ × ℚ)))
deriving DecidableEq, Repr

/-- One iteration of the layer loop, lines 453-457: store the metrics
of the finished layer and, when a results path is configured,
overwrite the persisted file with the full accumulated dict. -/
def probingStep (configured : Bool) (metrics : ℕ → ℚ × ℚ × ℚ)
    (st : SweepState) (layer : ℕ) : SweepState :=
  let rs := dictInsert st.results layer (metrics layer)
  ⟨rs, if configured then some rs else st.file⟩

/-- The sweep of probing (lines 380-458) over the configured layers,
starting from the empty dict and no written file. -/
def probing (configured : Bool) (metrics : ℕ → ℚ × ℚ × ℚ)
    (layers : List ℕ) : SweepState :=
  layers.foldl (probingStep configured metrics) ⟨[], none⟩

/-! ### Helper lemmas: batch-accumulated counts equal flat counts -/

lemma countPred_append (x y : List (ℕ × ℕ)) (id : ℕ) :
    countPred (x ++ y) id = countPred x id + countPred y id := by
  simp [countPred, List.filter_append]

lemma countTarget_append (x y : List (ℕ × ℕ)) (id : ℕ) :
    countTarget (x ++ y) id = countTarget x id + countTarget y id := by
  simp [countTarget, List.filter_append]

lemma countCorrect_append (x y : List (ℕ × ℕ)) (id : ℕ) :
    countCorrect (x ++ y) id = countCorrect x id + countCorrect y id := by
  simp [countCorrect, List.filter_append]

lemma foldl_add_flatten (cnt : List (ℕ × ℕ) → ℕ)
    (h : ∀ x y, cnt (x ++ y) = cnt x + cnt y) :
    ∀ (l : List (List (ℕ × ℕ))) (a : ℕ),
      l.foldl (fun acc b => acc + cnt b) a = a + cnt l.flatten := by
  have h0 : cnt [] = 0 := by
    have := h [] []
    simpa using this
  intro l
  induction l with
  | nil => intro a; simp [h0]
  | cons b bs ih =>
    intro a
    simp only [List.foldl_cons, List.flatten_cons, ih, h]
    omega

lemma predsSum_flatten (batches : List (List (ℕ × ℕ))) (id : ℕ) :
    predsSum batches id = countPred batches.flatten id := by
  simpa using foldl_add_flatten (fun b => countPred b id)
    (fun x y => countPred_append x y id) batches 0

lemma targetsSum_flatten (batches : List (List (ℕ × ℕ))) (id : ℕ) :
    targetsSum batches id = countTarget batches.flatten id := by
  simpa using foldl_add_flatten (fun b => countTarget b id)
    (fun x y => countTarget_append x y id) batches 0

lemma predsCorrectSum_flatten (batches : List (List (ℕ × ℕ))) (id : ℕ) :
    predsCorrectSum batches id = countCorrect batches.flatten id := by
  simpa using foldl_add_flatten (fun b => countCorrect b id)
    (fun x y => countCorrect_append x y id) batches 0

lemma metrics_eq_spec (ids : List ℕ) (batches : List (List (ℕ × ℕ)))
    (h : ids ≠ []) :
    test_single_span_metrics ids batches =
      (if specAvgPrecision ids batches.flatten + specAvgRecall ids batches.flatten = 0
       then none
       else some (specAvgPrecision ids batches.flatten,
         specAvgRecall ids batches.flatten,
         2 * (specAvgPrecision ids batches.flatten * specAvgRecall ids batches.flatten) /
           (specAvgPrecision ids batches.flatten + specAvgRecall ids batches.flatten))) := by
  have hp : ids.map (fun id =>
      if predsSum batches id ≠ 0 then
        (predsCorrectSum batches id : ℚ) / (predsSum batches id : ℚ) else 0) =
      ids.map (specPrecision batches.flatten) := by
    refine List.map_congr_left (fun id _ => ?_)
    rw [predsSum_flatten, predsCorrectSum_flatten]
    by_cases h0 : countPred batches.flatten id = 0 <;>
      simp [specPrecision, h0]
  have hr : ids.map (fun id =>
      if targetsSum batches id ≠ 0 then
        (predsCorrectSum batches id : ℚ) / (targetsSum batches id : ℚ) else 0) =
      ids.map (specRecall batches.flatten) := by
    refine List.map_congr_left (fun id _ => ?_)
    rw [targetsSum_flatten, predsCorrectSum_flatten]
    by_cases h0 : countTarget batches.flatten id = 0 <;>
      simp [specRecall, h0]
  simp only [test_single_span_metrics, hp, hr]
  rw [if_neg (by simpa using h)]
  rfl

lemma two_span_metrics_eq :
    test_two_span_metrics = test_single_span_metrics := rfl

/-- Claim C1: for every test pass of test_single_span and
test_two_span over a label-id set of size n, per-class precision
equals correct/predicted (0 when the predicted count is 0), per-class
recall equals correct/actual (0 when the actual count is 0), macro
precision and macro recall are unweighted means over exactly the n
label ids (ids absent from the test set contribute 0), and the F1
score equals 2*P*R/(P+R); in particular, for 4 samples with 2
classes, predictions [0,0,1,1] and targets [0,1,1,1], the result is
P = 0.75, R = 5/6 = 0.833..., F1 = 15/19, approximately 0.789. -/
theorem C1_test_metrics :
    (∀ (ids : List ℕ) (batches : List (List (ℕ × ℕ))), ids ≠ [] →
      test_single_span_metrics ids batches =
        (if specAvgPrecision ids batches.flatten + specAvgRecall ids batches.flatten = 0
         then none
         else some (specAvgPrecision ids batches.flatten,
           specAvgRecall ids batches.flatten,
           2 * (specAvgPrecision ids batches.flatten * specAvgRecall ids batches.flatten) /
             (specAvgPrecision ids batches.flatten + specAvgRecall ids batches.flatten))) ∧
      test_two_span_metrics ids batches =
        (if specAvgPrecision ids batches.flatten + specAvgRecall ids batches.flatten = 0
         then none
         else some (specAvgPrecision ids batches.flatten,
           specAvgRecall ids batches.flatten,
           2 * (specAvgPrecision ids batches.flatten * specAvgRecall ids batches.flatten) /
             (specAvgPrecision ids batches.flatten + specAvgRecall ids batches.flatten)))) ∧
    test_single_span_metrics [0, 1] [[(0, 0), (0, 1), (1, 1), (1, 1)]] =
      some (3/4, 5/6, 15/19) ∧
    test_two_span_metrics [0, 1] [[(0, 0), (0, 1), (1, 1), (1, 1)]] =
      some (3/4, 5/6, 15/19) := by
  have hconc : test_single_span_metrics [0, 1] [[(0, 0), (0, 1), (1, 1), (1, 1)]] =
      some (3/4, 5/6, 15/19) := by
    simp only [test_single_span_metrics, predsSum, targetsSum, predsCorrectSum,
      countPred, countTarget, countCorrect]
    norm_num
  refine ⟨fun ids batches h => ⟨metrics_eq_spec ids batches h, ?_⟩, hconc, ?_⟩
  · rw [two_span_metrics_eq]
    exact metrics_eq_spec ids batches h
  · rw [two_span_metrics_eq]
    exact hconc

/-- Witness for C1 at a concrete input: two label ids, one batch with
a single correctly classified sample of class 1. -/
theorem C1_test_metrics_witness :
    test_single_span_metrics [0, 1] [[(1, 1)]] =
      (if specAvgPrecision [0, 1] [[(1, 1)]].flatten +
          specAvgRecall [0, 1] [[(1, 1)]].flatten = 0
       then none
       else some (specAvgPrecision [0, 1] [[(1, 1)]].flatten,
         specAvgRecall [0, 1] [[(1, 1)]].flatten,
         2 * (specAvgPrecision [0, 1] [[(1, 1)]].flatten *
             specAvgRecall [0, 1] [[(1, 1)]].flatten) /
           (specAvgPrecision [0, 1] [[(1, 1)]].flatten +
             specAvgRecall [0, 1] [[(1, 1)]].flatten))) :=
  (C1_test_metrics.1 [0, 1] [[(1, 1)]] (by decide)).1

/-- Claim C3: on a test set on which every per-class precision and
recall is 0 (no prediction equals its target), the macro F1
computation of test_single_span and test_two_span divides by zero:
the zero-denominator branch is reachable and unguarded (modelled by
the none result). -/
theorem C3_f1_zero_division :
    test_single_span_metrics [0, 1] [[(1, 0), (0, 1)]] = none ∧
    test_two_span_metrics [0, 1] [[(1, 0), (0, 1)]] = none := by
  have h1 : test_single_span_metrics [0, 1] [[(1, 0), (0, 1)]] = none := by
    simp only [test_single_span_metrics, predsSum, targetsSum, predsCorrectSum,
      countPred, countTarget, countCorrect]
    norm_num
  exact ⟨h1, by rw [two_span_metrics_eq]; exact h1⟩

/-! ### Helper lemmas: the training loop -/

lemma evalStep_evalN (cfg : TrainCfg) (losses : ℕ → ℚ) (s : TrainState) :
    (evalStep cfg losses s).1.evalN = s.evalN + 1 := by
  simp only [evalStep]
  split_ifs <;> rfl

lemma evalStep_counter_le (cfg : TrainCfg) (losses : ℕ → ℚ) (s : TrainState)
    (h : s.counter ≤ s.evalN) :
    (evalStep cfg losses s).1.counter ≤ (evalStep cfg losses s).1.evalN := by
  simp only [evalStep]
  split_ifs <;> simp <;> omega

lemma evalStep_lr_cases (cfg : TrainCfg) (losses : ℕ → ℚ) (s : TrainState) :
    (evalStep cfg losses s).1.lr = s.lr ∨
      ((evalStep cfg losses s).1.lr = s.lr / 2 ∧
       (evalStep cfg losses s).2 = false ∧
       (evalStep cfg losses s).1.counter % cfg.patienceLr = 0 ∧
       0 < (evalStep cfg losses s).1.counter) := by
  simp only [evalStep]
  split_ifs <;>
    first
      | exact Or.inl rfl
      | (rename_i h; exact Or.inr ⟨rfl, rfl, h.1, h.2⟩)

lemma evalStep_stop_lr (cfg : TrainCfg) (losses : ℕ → ℚ) (s : TrainState)
    (h : (evalStep cfg losses s).2 = true) :
    (evalStep cfg losses s).1.lr = s.lr := by
  rcases evalStep_lr_cases cfg losses s with h1 | h1
  · exact h1
  · rw [h1.2.1] at h; cases h

lemma evalStep_stop_iff (cfg : TrainCfg) (losses : ℕ → ℚ) (s : TrainState)
    (m : ℕ) (hm : cfg.maxEvals = some m) :
    (evalStep cfg losses s).2 = true ↔
      (m ≤ s.evalN + 1 ∨ cfg.patience ≤ (evalStep cfg losses s).1.counter) := by
  simp only [evalStep, maxReached, hm]
  split_ifs <;> simp_all

lemma evalStep_lr_pow (cfg : TrainCfg) (losses : ℕ → ℚ) (s : TrainState) :
    ∃ h : ℕ, (evalStep cfg losses s).1.lr = s.lr / 2 ^ h := by
  rcases evalStep_lr_cases cfg losses s with h1 | h1
  · exact ⟨0, by simp [h1]⟩
  · exact ⟨1, by simp [h1.1]⟩

lemma runEpoch_zero (cfg : TrainCfg) (losses : ℕ → ℚ) (i total : ℕ)
    (s : TrainState) : runEpoch cfg losses 0 i total s = ⟨s, i, false, []⟩ := rfl

lemma runEpoch_succ (cfg : TrainCfg) (losses : ℕ → ℚ) (b i total : ℕ)
    (s : TrainState) :
    runEpoch cfg losses (b + 1) i total s =
      if i % cfg.evalInterval = 0 then
        if (evalStep cfg losses s).2 then
          ⟨(evalStep cfg losses s).1, i, true, [total + 1]⟩
        else
          ⟨(runEpoch cfg losses b (i + 1) (total + 1) (evalStep cfg losses s).1).st,
           (runEpoch cfg losses b (i + 1) (total + 1) (evalStep cfg losses s).1).nextIdx,
           (runEpoch cfg losses b (i + 1) (total + 1) (evalStep cfg losses s).1).broke,
           (total + 1) ::
             (runEpoch cfg losses b (i + 1) (total + 1) (evalStep cfg losses s).1).evalAts⟩
      else runEpoch cfg losses b (i + 1) (total + 1) s := rfl

lemma runEpoch_evalN_mono (cfg : TrainCfg) (losses : ℕ → ℚ) :
    ∀ (b i total : ℕ) (s : TrainState),
      s.evalN ≤ (runEpoch cfg losses b i total s).st.evalN := by
  intro b
  induction b with
  | zero => intro i total s; simp [runEpoch_zero]
  | succ b ih =>
    intro i total s
    rw [runEpoch_succ]
    by_cases hI : i % cfg.evalInterval = 0
    · rw [if_pos hI]
      by_cases hS : (evalStep cfg losses s).2 = true
      · rw [if_pos hS]
        dsimp only
        rw [evalStep_evalN]
        omega
      · rw [if_neg hS]
        dsimp only
        have h1 := ih (i + 1) (total + 1) (evalStep cfg losses s).1
        have h2 := evalStep_evalN cfg losses s
        omega
    · rw [if_neg hI]
      exact ih (i + 1) (total + 1) s

lemma runEpoch_lr_pow (cfg : TrainCfg) (losses : ℕ → ℚ) :
    ∀ (b i total : ℕ) (s : TrainState),
      ∃ h : ℕ, (runEpoch cfg losses b i total s).st.lr = s.lr / 2 ^ h := by
  intro b
  induction b with
  | zero => intro i total s; exact ⟨0, by simp [runEpoch_zero]⟩
  | succ b ih =>
    intro i total s
    rw [runEpoch_succ]
    by_cases hI : i % cfg.evalInterval = 0
    · rw [if_pos hI]
      by_cases hS : (evalStep cfg losses s).2 = true
      · refine ⟨0, ?_⟩
        rw [if_pos hS]
        dsimp only
        rw [evalStep_stop_lr cfg losses s hS]
        simp
      · obtain ⟨h1, e1⟩ := ih (i + 1) (total + 1) (evalStep cfg losses s).1
        obtain ⟨h2, e2⟩ := evalStep_lr_pow cfg losses s
        refine ⟨h2 + h1, ?_⟩
        rw [if_neg hS]
        dsimp only
        rw [e1, e2, div_div, ← pow_add]
    · rw [if_neg hI]
      exact ih (i + 1) (total + 1) s

lemma runEpoch_counter_le (cfg : TrainCfg) (losses : ℕ → ℚ) :
    ∀ (b i total : ℕ) (s : TrainState), s.counter ≤ s.evalN →
      (runEpoch cfg losses b i total s).st.counter ≤
        (runEpoch cfg losses b i total s).st.evalN := by
  intro b
  induction b with
  | zero => intro i total s h; simpa [runEpoch_zero] using h
  | succ b ih =>
    intro i total s h
    rw [runEpoch_succ]
    by_cases hI : i % cfg.evalInterval = 0
    · rw [if_pos hI]
      by_cases hS : (evalStep cfg losses s).2 = true
      · rw [if_pos hS]
        dsimp only
        exact evalStep_counter_le cfg losses s h
      · rw [if_neg hS]
        dsimp only
        exact ih (i + 1) (total + 1) (evalStep cfg losses s).1
          (evalStep_counter_le cfg losses s h)
    · rw [if_neg hI]
      exact ih (i + 1) (total + 1) s h

lemma runEpoch_complete_lt (cfg : TrainCfg) (losses : ℕ → ℚ) (m : ℕ)
    (hm : cfg.maxEvals = some m) :
    ∀ (b i total : ℕ) (s : TrainState),
      (runEpoch cfg losses b i total s).broke = false →
      ((runEpoch cfg losses b i total s).st.evalN = s.evalN ∨
       (runEpoch cfg losses b i total s).st.evalN < m) := by
  intro b
  induction b with
  | zero => intro i total s _; exact Or.inl (by simp [runEpoch_zero])
  | succ b ih =>
    intro i total s hbr
    rw [runEpoch_succ] at hbr ⊢
    by_cases hI : i % cfg.evalInterval = 0
    · rw [if_pos hI] at hbr ⊢
      by_cases hS : (evalStep cfg losses s).2 = true
      · rw [if_pos hS] at hbr; cases hbr
      · rw [if_neg hS] at hbr ⊢
        dsimp only at hbr ⊢
        have hlt : (evalStep cfg losses s).1.evalN < m := by
          have := evalStep_stop_iff cfg losses s m hm
          rw [evalStep_evalN]
          rcases Nat.lt_or_ge (s.evalN + 1) m with h1 | h1
          · exact h1
          · exact absurd (this.2 (Or.inl h1)) (by simp [hS])
        rcases ih (i + 1) (total + 1) (evalStep cfg losses s).1 hbr with h1 | h1
        · exact Or.inr (h1 ▸ hlt)
        · exact Or.inr h1
    · rw [if_neg hI] at hbr ⊢
      exact ih (i + 1) (total + 1) s hbr

lemma runEpoch_hits (cfg : TrainCfg) (losses : ℕ → ℚ) :
    ∀ (b i total : ℕ) (s : TrainState),
      (∃ j, j < b ∧ (i + j) % cfg.evalInterval = 0) →
      (runEpoch cfg losses b i total s).broke = false →
      s.evalN < (runEpoch cfg losses b i total s).st.evalN := by
  intro b
  induction b with
  | zero =>
    intro i total s hj _
    obtain ⟨j, hj1, _⟩ := hj
    omega
  | succ b ih =>
    intro i total s hj hbr
    rw [runEpoch_succ] at hbr ⊢
    by_cases hI : i % cfg.evalInterval = 0
    · rw [if_pos hI] at hbr ⊢
      by_cases hS : (evalStep cfg losses s).2 = true
      · rw [if_pos hS] at hbr; cases hbr
      · rw [if_neg hS] at hbr ⊢
        dsimp only at hbr ⊢
        have h1 := runEpoch_evalN_mono cfg losses b (i + 1) (total + 1)
          (evalStep cfg losses s).1
        have h2 := evalStep_evalN cfg losses s
        omega
    · rw [if_neg hI] at hbr ⊢
      obtain ⟨j, hj1, hj2⟩ := hj
      have hj0 : j ≠ 0 := by
        intro h0
        rw [h0, Nat.add_zero] at hj2
        exact hI hj2
      exact ih (i + 1) (total + 1) s
        ⟨j - 1, by omega, by rw [show i + 1 + (j - 1) = i + j by omega]; exact hj2⟩
        hbr

lemma runEpoch_breaks (cfg : TrainCfg) (losses : ℕ → ℚ) (m : ℕ)
    (hm : cfg.maxEvals = some m) :
    ∀ (b i total : ℕ) (s : TrainState),
      (∃ j, j < b ∧ (i + j) % cfg.evalInterval = 0) →
      m ≤ s.evalN →
      (runEpoch cfg losses b i total s).broke = true := by
  intro b
  induction b with
  | zero =>
    intro i total s hj _
    obtain ⟨j, hj1, _⟩ := hj
    omega
  | succ b ih =>
    intro i total s hj hge
    rw [runEpoch_succ]
    by_cases hI : i % cfg.evalInterval = 0
    · rw [if_pos hI]
      have hS : (evalStep cfg losses s).2 = true :=
        (evalStep_stop_iff cfg losses s m hm).2 (Or.inl (by omega))
      rw [if_pos hS]
    · rw [if_neg hI]
      obtain ⟨j, hj1, hj2⟩ := hj
      have hj0 : j ≠ 0 := by
        intro h0
        rw [h0, Nat.add_zero] at hj2
        exact hI hj2
      exact ih (i + 1) (total + 1) s
        ⟨j - 1, by omega, by rw [show i + 1 + (j - 1) = i + j by omega]; exact hj2⟩
        hge

lemma runEpoch_evalN_le (cfg : TrainCfg) (losses : ℕ → ℚ) (m : ℕ)
    (hm : cfg.maxEvals = some m) :
    ∀ (b i total : ℕ) (s : TrainState), s.evalN < m →
      (runEpoch cfg losses b i total s).st.evalN ≤ m := by
  intro b
  induction b with
  | zero => intro i total s h; simp [runEpoch_zero]; omega
  | succ b ih =>
    intro i total s h
    rw [runEpoch_succ]
    by_cases hI : i % cfg.evalInterval = 0
    · rw [if_pos hI]
      by_cases hS : (evalStep cfg losses s).2 = true
      · rw [if_pos hS]
        dsimp only
        rw [evalStep_evalN]
        omega
      · rw [if_neg hS]
        dsimp only
        have hlt : (evalStep cfg losses s).1.evalN < m := by
          have := evalStep_stop_iff cfg losses s m hm
          rw [evalStep_evalN]
          rcases Nat.lt_or_ge (s.evalN + 1) m with h1 | h1
          · exact h1
          · exact absurd (this.2 (Or.inl h1)) (by simp [hS])
        exact ih (i + 1) (total + 1) (evalStep cfg losses s).1 hlt
    · rw [if_neg hI]
      exact ih (i + 1) (total + 1) s h

lemma runEpoch_broke_ge (cfg : TrainCfg) (losses : ℕ → ℚ) (m : ℕ)
    (hm : cfg.maxEvals = some m) (hpat : m ≤ cfg.patience) :
    ∀ (b i total : ℕ) (s : TrainState), s.counter ≤ s.evalN →
      (runEpoch cfg losses b i total s).broke = true →
      m ≤ (runEpoch cfg losses b i total s).st.evalN := by
  intro b
  induction b with
  | zero => intro i total s _ hbr; rw [runEpoch_zero] at hbr; cases hbr
  | succ b ih =>
    intro i total s hc hbr
    rw [runEpoch_succ] at hbr ⊢
    by_cases hI : i % cfg.evalInterval = 0
    · rw [if_pos hI] at hbr ⊢
      by_cases hS : (evalStep cfg losses s).2 = true
      · rw [if_pos hS]
        dsimp only
        rcases (evalStep_stop_iff cfg losses s m hm).1 hS with h1 | h1
        · rw [evalStep_evalN]; omega
        · have h2 := evalStep_counter_le cfg losses s hc
          omega
      · rw [if_neg hS] at hbr ⊢
        dsimp only at hbr ⊢
        exact ih (i + 1) (total + 1) (evalStep cfg losses s).1
          (evalStep_counter_le cfg losses s hc) hbr
    · rw [if_neg hI] at hbr ⊢
      exact ih (i + 1) (total + 1) s hc hbr

lemma window_hit (E : ℕ) (hE : 0 < E) (b : ℕ) (hEb : E ≤ b) (i : ℕ) :
    ∃ j, j < b ∧ (i + j) % E = 0 := by
  refine ⟨(E - i % E) % E, ?_, ?_⟩
  · have := Nat.mod_lt (E - i % E) hE
    omega
  · rcases Nat.eq_zero_or_pos (i % E) with h0 | hpos
    · rw [h0, Nat.sub_zero, Nat.mod_self, Nat.add_zero]
      exact h0
    · have hrlt : i % E < E := Nat.mod_lt _ hE
      have hj : (E - i % E) % E = E - i % E := Nat.mod_eq_of_lt (by omega)
      rw [Nat.add_mod, hj, hj]
      have hsum : i % E + (E - i % E) = E := by omega
      rw [hsum, Nat.mod_self]

lemma runTrain_zero (cfg : TrainCfg) (losses : ℕ → ℚ) (B i total : ℕ)
    (s : TrainState) : runTrain cfg losses B 0 i total s = none := rfl

lemma runTrain_succ (cfg : TrainCfg) (losses : ℕ → ℚ) (B fuel i total : ℕ)
    (s : TrainState) :
    runTrain cfg losses B (fuel + 1) i total s =
      (if (runEpoch cfg losses B i total s).broke then
        some ((runEpoch cfg losses B i total s).st,
          (runEpoch cfg losses B i total s).evalAts)
      else
        match runTrain cfg losses B fuel
            (((runEpoch cfg losses B i total s).nextIdx - 1) % cfg.evalInterval)
            (total + B) (runEpoch cfg losses B i total s).st with
        | none => none
        | some (st', ats) =>
          some (st', (runEpoch cfg losses B i total s).evalAts ++ ats)) := rfl

lemma runTrain_lr_pow (cfg : TrainCfg) (losses : ℕ → ℚ) (B : ℕ) :
    ∀ (fuel i total : ℕ) (s : TrainState) (out : TrainState × List ℕ),
      runTrain cfg losses B fuel i total s = some out →
      ∃ h : ℕ, out.1.lr = s.lr / 2 ^ h := by
  intro fuel
  induction fuel with
  | zero => intro i total s out hout; rw [runTrain_zero] at hout; cases hout
  | succ fuel ih =>
    intro i total s out hout
    rw [runTrain_succ] at hout
    by_cases hbr : (runEpoch cfg losses B i total s).broke = true
    · rw [if_pos hbr] at hout
      obtain ⟨h1, e1⟩ := runEpoch_lr_pow cfg losses B i total s
      refine ⟨h1, ?_⟩
      rw [← e1]
      rw [show out.1 = (runEpoch cfg losses B i total s).st from by
        cases hout; rfl]
    · rw [if_neg hbr] at hout
      rcases hrec : runTrain cfg losses B fuel
          (((runEpoch cfg losses B i total s).nextIdx - 1) % cfg.evalInterval)
          (total + B) (runEpoch cfg losses B i total s).st with _ | ⟨st', ats⟩ <;>
        rw [hrec] at hout
      · cases hout
      · obtain ⟨h1, e1⟩ := ih _ _ _ (st', ats) hrec
        obtain ⟨h2, e2⟩ := runEpoch_lr_pow cfg losses B i total s
        refine ⟨h2 + h1, ?_⟩
        have hout1 : out.1 = st' := by cases hout; rfl
        rw [hout1]
        dsimp only at e1
        rw [e1, e2, div_div, ← pow_add]

lemma runTrain_terminates (cfg : TrainCfg) (losses : ℕ → ℚ) (B m : ℕ)
    (hm : cfg.maxEvals = some m) (hE : 0 < cfg.evalInterval)
    (hEB : cfg.evalInterval ≤ B) :
    ∀ (k i total : ℕ) (s : TrainState), m ≤ s.evalN + k →
      ∃ out, runTrain cfg losses B (k + 1) i total s = some out := by
  intro k
  induction k with
  | zero =>
    intro i total s hge
    have hbr : (runEpoch cfg losses B i total s).broke = true :=
      runEpoch_breaks cfg losses m hm B i total s
        (window_hit cfg.evalInterval hE B hEB i) (by omega)
    exact ⟨_, by rw [runTrain_succ, if_pos hbr]⟩
  | succ k ih =>
    intro i total s hge
    by_cases hbr : (runEpoch cfg losses B i total s).broke = true
    · exact ⟨_, by rw [runTrain_succ, if_pos hbr]⟩
    · have hlt : s.evalN < (runEpoch cfg losses B i total s).st.evalN :=
        runEpoch_hits cfg losses B i total s
          (window_hit cfg.evalInterval hE B hEB i) (by simpa using hbr)
      obtain ⟨out', hout'⟩ := ih
        (((runEpoch cfg losses B i total s).nextIdx - 1) % cfg.evalInterval)
        (total + B) (runEpoch cfg losses B i total s).st (by omega)
      rcases out' with ⟨st', ats⟩
      refine ⟨(st', (runEpoch cfg losses B i total s).evalAts ++ ats), ?_⟩
      rw [runTrain_succ, if_neg hbr, hout']

lemma runTrain_evalN_le (cfg : TrainCfg) (losses : ℕ → ℚ) (B m : ℕ)
    (hm : cfg.maxEvals = some m) :
    ∀ (fuel i total : ℕ) (s : TrainState) (out : TrainState × List ℕ),
      runTrain cfg losses B fuel i total s = some out →
      s.evalN < m → out.1.evalN ≤ m := by
  intro fuel
  induction fuel with
  | zero => intro i total s out hout; rw [runTrain_zero] at hout; cases hout
  | succ fuel ih =>
    intro i total s out hout hlt
    rw [runTrain_succ] at hout
    by_cases hbr : (runEpoch cfg losses B i total s).broke = true
    · rw [if_pos hbr] at hout
      rw [show out.1 = (runEpoch cfg losses B i total s).st from by
        cases hout; rfl]
      exact runEpoch_evalN_le cfg losses m hm B i total s hlt
    · rw [if_neg hbr] at hout
      rcases hrec : runTrain cfg losses B fuel
          (((runEpoch cfg losses B i total s).nextIdx - 1) % cfg.evalInterval)
          (total + B) (runEpoch cfg losses B i total s).st with _ | ⟨st', ats⟩ <;>
        rw [hrec] at hout
      · cases hout
      · have hlt2 : (runEpoch cfg losses B i total s).st.evalN < m := by
          rcases runEpoch_complete_lt cfg losses m hm B i total s
            (by simpa using hbr) with h1 | h1
          · omega
          · exact h1
        have := ih _ _ _ (st', ats) hrec hlt2
        rw [show out.1 = st' from by cases hout; rfl]
        exact this

lemma runTrain_evalN_ge (cfg : TrainCfg) (losses : ℕ → ℚ) (B m : ℕ)
    (hm : cfg.maxEvals = some m) (hpat : m ≤ cfg.patience) :
    ∀ (fuel i total : ℕ) (s : TrainState) (out : TrainState × List ℕ),
      s.counter ≤ s.evalN →
      runTrain cfg losses B fuel i total s = some out →
      m ≤ out.1.evalN := by
  intro fuel
  induction fuel with
  | zero => intro i total s out _ hout; rw [runTrain_zero] at hout; cases hout
  | succ fuel ih =>
    intro i total s out hc hout
    rw [runTrain_succ] at hout
    by_cases hbr : (runEpoch cfg losses B i total s).broke = true
    · rw [if_pos hbr] at hout
      rw [show out.1 = (runEpoch cfg losses B i total s).st from by
        cases hout; rfl]
      exact runEpoch_broke_ge cfg losses m hm hpat B i total s hc hbr
    · rw [if_neg hbr] at hout
      rcases hrec : runTrain cfg losses B fuel
          (((runEpoch cfg losses B i total s).nextIdx - 1) % cfg.evalInterval)
          (total + B) (runEpoch cfg losses B i total s).st with _ | ⟨st', ats⟩ <;>
        rw [hrec] at hout
      · cases hout
      · have := ih _ _ _ (st', ats)
          (runEpoch_counter_le cfg losses B i total s hc) hrec
        rw [show out.1 = st' from by cases hout; rfl]
        exact this

lemma runTrain_no_eval :
    ∀ (fuel total : ℕ) (s : TrainState),
      runTrain ⟨1, some 3, 5, 100, 2⟩ (fun _ => 1) 1 fuel 1 total s = none := by
  intro fuel
  induction fuel with
  | zero => intro total s; rfl
  | succ fuel ih =>
    intro total s
    show (match runTrain ⟨1, some 3, 5, 100, 2⟩ (fun _ => 1) 1 fuel 1 (total + 1) s with
      | none => none
      | some (st', ats) => some (st', ([] : List ℕ) ++ ats)) = none
    rw [ih (total + 1) s]

/-- Claim C4: throughout every run of train_single_span and
train_two_span, the learning rate changes only at an evaluation
boundary at which the updated non-improvement counter is a positive
multiple of patience_lr and no stop condition fired, every change is
an exact halving (lr := lr/2, applied to the live optimizer parameter
groups, which the state lr field mirrors), the final learning rate is
the initial one divided by a power of two, and for a positive initial
learning rate the learning rate only ever decreases. -/
theorem C4_lr_halving :
    (∀ (cfg : TrainCfg) (losses : ℕ → ℚ) (s : TrainState),
      (evalStep cfg losses s).1.lr = s.lr ∨
        ((evalStep cfg losses s).1.lr = s.lr / 2 ∧
         (evalStep cfg losses s).2 = false ∧
         (evalStep cfg losses s).1.counter % cfg.patienceLr = 0 ∧
         0 < (evalStep cfg losses s).1.counter)) ∧
    (∀ (cfg : TrainCfg) (losses : ℕ → ℚ) (B fuel i total : ℕ)
       (s : TrainState) (out : TrainState × List ℕ),
      runTrain cfg losses B fuel i total s = some out →
      ∃ h : ℕ, out.1.lr = s.lr / 2 ^ h) ∧
    (∀ (cfg : TrainCfg) (losses : ℕ → ℚ) (B fuel i total : ℕ)
       (s : TrainState) (out : TrainState × List ℕ),
      0 < s.lr →
      runTrain cfg losses B fuel i total s = some out →
      out.1.lr ≤ s.lr) := by
  refine ⟨fun cfg losses s => evalStep_lr_cases cfg losses s,
    fun cfg losses B fuel i total s out h =>
      runTrain_lr_pow cfg losses B fuel i total s out h, ?_⟩
  intro cfg losses B fuel i total s out hpos hout
  obtain ⟨h, e⟩ := runTrain_lr_pow cfg losses B fuel i total s out hout
  rw [e]
  exact div_le_self (le_of_lt hpos) (one_le_pow₀ (by norm_num))

/-- Witness for C4 at a concrete run: one epoch of one batch,
max_evals = 1, initial learning rate 1; the run stops at the first
evaluation and the final learning rate is bounded by the initial
one. -/
theorem C4_lr_halving_witness :
    (0 : ℚ) < (⟨1, 0, 0, 0⟩ : TrainState).lr ∧
    runTrain ⟨1, some 1, 5, 100, 1⟩ (fun _ => 1) 1 1 1 0 ⟨1, 0, 0, 0⟩ =
      some (⟨1, 1, 1, 1⟩, [1]) ∧
    ((⟨1, 1, 1, 1⟩ : TrainState), ([1] : List ℕ)).1.lr ≤
      (⟨1, 0, 0, 0⟩ : TrainState).lr :=
  have hrun : runTrain ⟨1, some 1, 5, 100, 1⟩ (fun _ => 1) 1 1 1 0 ⟨1, 0, 0, 0⟩ =
      some (⟨1, 1, 1, 1⟩, [1]) := by decide
  ⟨by decide, hrun,
    C4_lr_halving.2.2 ⟨1, some 1, 5, 100, 1⟩ (fun _ => 1) 1 1 1 0 ⟨1, 0, 0, 0⟩
      (⟨1, 1, 1, 1⟩, [1]) (by decide) hrun⟩

/-- Claim C5 (amended): provided the evaluation interval is positive
and at most the number of batches per epoch (so that every epoch
reaches an evaluation) and max_evals is configured, training
terminates within max_evals + 1 epochs after at most max_evals
evaluations, and after exactly max_evals evaluations whenever
max_evals is at most patience (for any loss sequence); moreover the
stop conditions are checked in order at each evaluation: the run
stops iff the evaluation count has reached max_evals or, otherwise,
the non-improvement counter has reached patience, and a stopping
evaluation never touches the learning rate (the learning-rate-decay
branch runs only when training continues). -/
theorem C5_termination (cfg : TrainCfg) (losses : ℕ → ℚ) (B m : ℕ)
    (hm : cfg.maxEvals = some m) (hmpos : 0 < m)
    (hE : 0 < cfg.evalInterval) (hEB : cfg.evalInterval ≤ B) :
    (∃ out, trainSingleSpan cfg losses B (m + 1) = some out ∧
       trainTwoSpan cfg losses B (m + 1) = some out ∧
       out.1.evalN ≤ m ∧ (m ≤ cfg.patience → out.1.evalN = m)) ∧
    (∀ s : TrainState,
      ((evalStep cfg losses s).2 = true ↔
        m ≤ s.evalN + 1 ∨ cfg.patience ≤ (evalStep cfg losses s).1.counter) ∧
      ((evalStep cfg losses s).2 = true →
        (evalStep cfg losses s).1.lr = s.lr)) := by
  constructor
  · obtain ⟨out, hout⟩ := runTrain_terminates cfg losses B m hm hE hEB m 1 0
      ⟨cfg.lr0, 0, 0, 0⟩ (by omega)
    refine ⟨out, hout, hout, ?_, ?_⟩
    · exact runTrain_evalN_le cfg losses B m hm (m + 1) 1 0 _ out hout hmpos
    · intro hpat
      have h1 := runTrain_evalN_le cfg losses B m hm (m + 1) 1 0 _ out hout hmpos
      have h2 := runTrain_evalN_ge cfg losses B m hm hpat (m + 1) 1 0 _ out
        (le_refl 0) hout
      omega
  · intro s
    exact ⟨evalStep_stop_iff cfg losses s m hm, evalStep_stop_lr cfg losses s⟩

/-- Witness for C5 at a concrete configuration: eval_interval 1, one
batch per epoch, max_evals 3, patience 100. -/
theorem C5_termination_witness :
    ∃ out, trainSingleSpan ⟨1, some 3, 5, 100, 1⟩ (fun _ => 1) 1 4 = some out ∧
      trainTwoSpan ⟨1, some 3, 5, 100, 1⟩ (fun _ => 1) 1 4 = some out ∧
      out.1.evalN ≤ 3 ∧ out.1.evalN = 3 := by
  obtain ⟨out, h1, h2, h3, h4⟩ := (C5_termination ⟨1, some 3, 5, 100, 1⟩
    (fun _ => 1) 1 3 rfl (by decide) (by decide) (by decide)).1
  exact ⟨out, h1, h2, h3, h4 (by decide)⟩

/-- Counterexample for C5 as stated: with eval_interval 2 and a single
batch per epoch the run of train_single_span performs no evaluation at
all and never terminates, although max_evals = 3 is configured; and
with patience 1 < max_evals = 3 and never-improving losses the run
stops after 1 evaluation, not after max_evals = 3 (the patience check
can fire before the max_evals count is reached, so "exactly max_evals
evaluations regardless of patience" fails). -/
theorem C5_counterexample :
    (¬ trainTerminates ⟨1, some 3, 5, 100, 2⟩ (fun _ => 1) 1) ∧
    trainSingleSpan ⟨1, some 3, 5, 1, 1⟩ (fun _ => 1) 1 2 =
      some (⟨1, 1, 1, 1⟩, [1]) ∧
    (⟨1, 1, 1, 1⟩ : TrainState).evalN = 1 ∧ (1 : ℕ) ≠ 3 := by
  refine ⟨?_, by decide, rfl, by decide⟩
  rintro ⟨fuel, out, h⟩
  simp only [trainSingleSpan] at h
  rw [runTrain_no_eval fuel 0 ⟨1, 0, 0, 0⟩] at h
  cases h

/-- Claim C7: the batch counter is carried across epoch boundaries
via start_index = i % eval_interval, but this is off by one, so the
evaluations are NOT exactly eval_interval batches apart once an epoch
boundary intervenes: with eval_interval 2 and epochs of 3 batches the
evaluations fall at cumulative batches 2 and 5, which are 3 batches
apart.  This contradicts the TrainConfig docstring (eval_interval:
number of batches between two evaluations); the claim is right about
the intent and the code is off by one. -/
theorem C7_eval_spacing :
    trainSingleSpan ⟨1, some 2, 5, 100, 2⟩ (fun _ => 1) 3 2 =
      some (⟨1, 2, 2, 1⟩, [2, 5]) ∧
    trainTwoSpan ⟨1, some 2, 5, 100, 2⟩ (fun _ => 1) 3 2 =
      some (⟨1, 2, 2, 1⟩, [2, 5]) ∧
    (5 : ℕ) - 2 = 3 ∧ (⟨1, some 2, 5, 100, 2⟩ : TrainCfg).evalInterval = 2 :=
  ⟨by decide, by decide, by decide, rfl⟩

lemma evalStep_stats (cfg : TrainCfg) (losses : ℕ → ℚ) (s : TrainState) :
    (evalStep cfg losses s).1.counter =
      (if losses s.evalN < (if s.evalN + 1 = 1 then losses s.evalN else s.minLoss)
       then 0 else s.counter + 1) ∧
    (evalStep cfg losses s).1.minLoss =
      (if losses s.evalN < (if s.evalN + 1 = 1 then losses s.evalN else s.minLoss)
       then losses s.evalN
       else (if s.evalN + 1 = 1 then losses s.evalN else s.minLoss)) := by
  simp only [evalStep]
  split_ifs <;> simp_all

lemma runEpoch_factor (cfg : TrainCfg) (losses : ℕ → ℚ) :
    ∀ (b i total : ℕ) (s : TrainState),
      ∃ k, (runEpoch cfg losses b i total s).st = (nextES cfg losses)^[k] s := by
  intro b
  induction b with
  | zero => intro i total s; exact ⟨0, by simp [runEpoch_zero]⟩
  | succ b ih =>
    intro i total s
    rw [runEpoch_succ]
    by_cases hI : i % cfg.evalInterval = 0
    · rw [if_pos hI]
      by_cases hS : (evalStep cfg losses s).2 = true
      · rw [if_pos hS]
        exact ⟨1, by simp [nextES]⟩
      · rw [if_neg hS]
        obtain ⟨k, hk⟩ := ih (i + 1) (total + 1) (evalStep cfg losses s).1
        refine ⟨k + 1, ?_⟩
        dsimp only
        rw [hk, Function.iterate_succ_apply]
        rfl
    · rw [if_neg hI]
      exact ih (i + 1) (total + 1) s

lemma runTrain_factor (cfg : TrainCfg) (losses : ℕ → ℚ) (B : ℕ) :
    ∀ (fuel i total : ℕ) (s : TrainState) (out : TrainState × List ℕ),
      runTrain cfg losses B fuel i total s = some out →
      ∃ k, out.1 = (nextES cfg losses)^[k] s := by
  intro fuel
  induction fuel with
  | zero => intro i total s out hout; rw [runTrain_zero] at hout; cases hout
  | succ fuel ih =>
    intro i total s out hout
    rw [runTrain_succ] at hout
    by_cases hbr : (runEpoch cfg losses B i total s).broke = true
    · rw [if_pos hbr] at hout
      obtain ⟨k, hk⟩ := runEpoch_factor cfg losses B i total s
      exact ⟨k, by rw [show out.1 = (runEpoch cfg losses B i total s).st from by
        cases hout; rfl]; exact hk⟩
    · rw [if_neg hbr] at hout
      rcases hrec : runTrain cfg losses B fuel
          (((runEpoch cfg losses B i total s).nextIdx - 1) % cfg.evalInterval)
          (total + B) (runEpoch cfg losses B i total s).st with _ | ⟨st', ats⟩ <;>
        rw [hrec] at hout
      · cases hout
      · obtain ⟨k2, hk2⟩ := ih _ _ _ (st', ats) hrec
        obtain ⟨k1, hk1⟩ := runEpoch_factor cfg losses B i total s
        refine ⟨k2 + k1, ?_⟩
        rw [show out.1 = st' from by cases hout; rfl]
        dsimp only at hk2
        rw [hk2, hk1, Function.iterate_add_apply]

lemma nextES_traj (cfg : TrainCfg) (losses : ℕ → ℚ)
    (hmono : ∀ j k, j ≤ k → losses j ≤ losses k) (lrv ml : ℚ) :
    ∀ k, ((nextES cfg losses)^[k] ⟨lrv, 0, 0, ml⟩).evalN = k ∧
      ((nextES cfg losses)^[k] ⟨lrv, 0, 0, ml⟩).counter = k ∧
      (0 < k → ((nextES cfg losses)^[k] ⟨lrv, 0, 0, ml⟩).minLoss = losses 0) := by
  intro k
  induction k with
  | zero => exact ⟨rfl, rfl, by omega⟩
  | succ k ih =>
    obtain ⟨he, hc, hml⟩ := ih
    have hni : ¬ losses ((nextES cfg losses)^[k] ⟨lrv, 0, 0, ml⟩).evalN <
        (if ((nextES cfg losses)^[k] ⟨lrv, 0, 0, ml⟩).evalN + 1 = 1
         then losses ((nextES cfg losses)^[k] ⟨lrv, 0, 0, ml⟩).evalN
         else ((nextES cfg losses)^[k] ⟨lrv, 0, 0, ml⟩).minLoss) := by
      rcases Nat.eq_zero_or_pos k with hk | hk
      · subst hk
        rw [he]
        simp
      · rw [he, if_neg (by omega), hml hk]
        exact not_lt.2 (hmono 0 k (Nat.zero_le k))
    refine ⟨?_, ?_, ?_⟩
    · rw [Function.iterate_succ_apply']
      show (evalStep cfg losses _).1.evalN = k + 1
      rw [evalStep_evalN, he]
    · rw [Function.iterate_succ_apply']
      show (evalStep cfg losses _).1.counter = k + 1
      rw [(evalStep_stats cfg losses _).1, if_neg hni, hc]
    · intro _
      rw [Function.iterate_succ_apply']
      show (evalStep cfg losses _).1.minLoss = losses 0
      rw [(evalStep_stats cfg losses _).2, if_neg hni]
      rcases Nat.eq_zero_or_pos k with hk | hk
      · subst hk
        rw [he]
        simp
      · rw [he, if_neg (by omega)]
        exact hml hk

/-- Claim C9: the first evaluation never counts as an improvement:
min_loss is initialised to the first evaluation loss and compared with
strict less-than, so the non-improvement counter equals 1 immediately
after the first evaluation (from the initial state lr, eval = 0,
counter = 0 and any min_loss); when the validation losses never
strictly improve, the counter equals k after the k-th evaluation, so
it reaches the patience threshold at exactly the patience-th
evaluation and not before; and the evaluation-state of every epoch and
of every run of train_single_span / train_two_span is an iterate of
the single-evaluation transformation, so these statements describe
every run. -/
theorem C9_first_eval_no_improvement :
    (∀ (cfg : TrainCfg) (losses : ℕ → ℚ) (lrv ml : ℚ),
      (nextES cfg losses ⟨lrv, 0, 0, ml⟩).counter = 1) ∧
    (∀ (cfg : TrainCfg) (losses : ℕ → ℚ),
      (∀ j k, j ≤ k → losses j ≤ losses k) →
      ∀ (lrv ml : ℚ) (k : ℕ),
        ((nextES cfg losses)^[k] ⟨lrv, 0, 0, ml⟩).counter = k ∧
        cfg.patience ≤
          ((nextES cfg losses)^[cfg.patience] ⟨lrv, 0, 0, ml⟩).counter ∧
        (k < cfg.patience →
          ((nextES cfg losses)^[k] ⟨lrv, 0, 0, ml⟩).counter < cfg.patience)) ∧
    (∀ (cfg : TrainCfg) (losses : ℕ → ℚ) (b i total : ℕ) (s : TrainState),
      ∃ k, (runEpoch cfg losses b i total s).st = (nextES cfg losses)^[k] s) ∧
    (∀ (cfg : TrainCfg) (losses : ℕ → ℚ) (B fuel i total : ℕ) (s : TrainState)
       (out : TrainState × List ℕ),
      runTrain cfg losses B fuel i total s = some out →
      ∃ k, out.1 = (nextES cfg losses)^[k] s) := by
  refine ⟨?_, ?_, runEpoch_factor, runTrain_factor⟩
  · intro cfg losses lrv ml
    show (evalStep cfg losses _).1.counter = 1
    rw [(evalStep_stats cfg losses _).1]
    simp
  · intro cfg losses hmono lrv ml k
    have h1 := (nextES_traj cfg losses hmono lrv ml k).2.1
    have h2 := (nextES_traj cfg losses hmono lrv ml cfg.patience).2.1
    exact ⟨h1, by omega, by omega⟩

/-- Witness for C9: with constant losses (which never strictly
improve) the counter after two evaluations is 2. -/
theorem C9_witness :
    ((nextES ⟨1, none, 5, 20, 100⟩ (fun _ => 1))^[2] ⟨1, 0, 0, 0⟩).counter = 2 :=
  (C9_first_eval_no_improvement.2.1 ⟨1, none, 5, 20, 100⟩ (fun _ => 1)
    (fun _ _ _ => le_refl 1) 1 0 2).1

/-! ### Helper lemmas: span alignment -/

lemma padTarget_some (msl : ℕ) (ts : List ℕ) (h : ts.length ≤ msl) :
    padTarget msl ts = some (padVec msl ts) := by
  simp [padTarget, padVec, h]

lemma padTarget_none (msl : ℕ) (ts : List ℕ) (h : msl < ts.length) :
    padTarget msl ts = none := by
  simp [padTarget]
  omega

lemma padVec_length (msl : ℕ) (ts : List ℕ) (h : ts.length ≤ msl) :
    (padVec msl ts).length = msl := by
  simp [padVec]
  omega

lemma replicate_getD_zero (k m : ℕ) :
    (List.replicate k (0 : ℕ)).getD m 0 = 0 := by
  rw [List.getD_eq_getElem?_getD, List.getElem?_replicate]
  split_ifs <;> rfl

lemma padVec_getD_zero (msl : ℕ) (ts : List ℕ) (p : ℕ) (hp : ts.length ≤ p) :
    (padVec msl ts).getD p 0 = 0 := by
  rw [padVec, List.getD_append_right ts _ 0 p hp, replicate_getD_zero]

lemma spanMask_length (msl s e : ℕ) : (spanMask msl s e).length = msl := by
  simp [spanMask]

lemma spanMask_getD_false (msl s e p : ℕ) (he : e ≤ p) :
    (spanMask msl s e).getD p false = false := by
  rw [List.getD_eq_getElem?_getD, spanMask, List.getElem?_map]
  by_cases hp : p < msl
  · rw [List.getElem?_range hp]
    have : ¬ (p < e) := by omega
    simp [this]
  · rw [List.getElem?_eq_none (by simpa [List.length_range] using by omega)]
    rfl

lemma resolveSpans_sp2 (w2t : ℕ → ℕ → Option (ℕ × ℕ)) (a b : ℕ × ℕ)
    (h2 : Bool) (s1 e1 : ℕ) (sp2 : Option (ℕ × ℕ))
    (h : resolveSpans w2t a b h2 = some (s1, e1, sp2)) : sp2.isSome = h2 := by
  cases h2 <;> simp only [resolveSpans] at h
  · rcases hA : wordToTokensApi w2t a.1 with _ | x <;>
      rcases hB : wordToTokensApi w2t a.2 with _ | y <;>
      rw [hA, hB] at h <;> simp_all
  · rcases hA : wordToTokensApi w2t a.1 with _ | x <;>
      rcases hB : wordToTokensApi w2t a.2 with _ | y <;>
      rcases hC : wordToTokensApi w2t b.1 with _ | z <;>
      rcases hD : wordToTokensApi w2t b.2 with _ | u <;>
      rw [hA, hB, hC, hD] at h <;> try simp_all
    obtain ⟨_, _, h3⟩ := h
    rw [← h3]
    rfl

lemma resolveSpans_bound (w2t : ℕ → ℕ → Option (ℕ × ℕ))
    (hb : ∀ b w p, w2t b w = some p → p.2 ≤ 128) (a b : ℕ × ℕ) (h2 : Bool)
    (s1 e1 : ℕ) (sp2 : Option (ℕ × ℕ))
    (h : resolveSpans w2t a b h2 = some (s1, e1, sp2)) :
    e1 ≤ 128 ∧ ∀ s2 e2, sp2 = some (s2, e2) → e2 ≤ 128 := by
  cases h2 <;> simp only [resolveSpans] at h
  · rcases hA : wordToTokensApi w2t a.1 with _ | x <;>
      rcases hB : wordToTokensApi w2t a.2 with _ | y <;>
      rw [hA, hB] at h <;> simp at h
    obtain ⟨he1, he2, he3⟩ := h
    subst he2
    subst he3
    exact ⟨hb 0 a.2 y hB, fun s2 e2 hx => by cases hx⟩
  · rcases hA : wordToTokensApi w2t a.1 with _ | x <;>
      rcases hB : wordToTokensApi w2t a.2 with _ | y <;>
      rcases hC : wordToTokensApi w2t b.1 with _ | z <;>
      rcases hD : wordToTokensApi w2t b.2 with _ | u <;>
      rw [hA, hB, hC, hD] at h <;> simp at h
    obtain ⟨he1, he2, he3⟩ := h
    subst he2
    subst he3
    refine ⟨hb 0 a.2 y hB, fun s2 e2 hx => ?_⟩
    have h4 : z.1 = s2 ∧ u.2 = e2 := by simpa using hx
    rw [← h4.2]
    exact hb 0 b.2 u hD

lemma keepSample_false (w2t : ℕ → ℕ → Option (ℕ × ℕ))
    (span1s span2s : ℕ → ℕ × ℕ) (i : ℕ) :
    keepSample w2t span1s span2s false i =
      ((wordToTokensApi w2t (span1s i).1).isSome &&
       (wordToTokensApi w2t (span1s i).2).isSome) := by
  simp only [keepSample, resolveSpans]
  rcases hA : wordToTokensApi w2t (span1s i).1 with _ | x <;>
    rcases hB : wordToTokensApi w2t (span1s i).2 with _ | y <;> simp_all

lemma keepSample_true (w2t : ℕ → ℕ → Option (ℕ × ℕ))
    (span1s span2s : ℕ → ℕ × ℕ) (i : ℕ) :
    keepSample w2t span1s span2s true i =
      ((wordToTokensApi w2t (span1s i).1).isSome &&
       (wordToTokensApi w2t (span1s i).2).isSome &&
       (wordToTokensApi w2t (span2s i).1).isSome &&
       (wordToTokensApi w2t (span2s i).2).isSome) := by
  simp only [keepSample, resolveSpans]
  rcases hA : wordToTokensApi w2t (span1s i).1 with _ | x <;>
    rcases hB : wordToTokensApi w2t (span1s i).2 with _ | y <;>
    rcases hC : wordToTokensApi w2t (span2s i).1 with _ | z <;>
    rcases hD : wordToTokensApi w2t (span2s i).2 with _ | u <;> simp_all

lemma tokenizeLoop_cons (msl : ℕ) (toks : ℕ → List ℕ)
    (w2t : ℕ → ℕ → Option (ℕ × ℕ)) (span1s span2s : ℕ → ℕ × ℕ) (h2 : Bool)
    (lab : ℕ → ℕ) (nl : ℕ) (i : ℕ) (rest : List ℕ) :
    tokenizeLoop msl toks w2t span1s span2s h2 lab nl (i :: rest) =
      (match padTarget msl (toks i) with
       | none => none
       | some target =>
         match resolveSpans w2t (span1s i) (span2s i) h2 with
         | none => tokenizeLoop msl toks w2t span1s span2s h2 lab nl rest
         | some (s1, e1, sp2) =>
           match tokenizeLoop msl toks w2t span1s span2s h2 lab nl rest with
           | none => none
           | some out =>
             some ⟨target :: out.input_ids,
                   spanMask msl s1 e1 :: out.span1_masks,
                   (match sp2 with
                    | some se => spanMask msl se.1 se.2 :: out.span2_masks
                    | none => out.span2_masks),
                   labelOneHot nl (lab i) :: out.labels⟩) := rfl

lemma tokenizeLoop_eq (msl : ℕ) (toks : ℕ → List ℕ)
    (w2t : ℕ → ℕ → Option (ℕ × ℕ)) (span1s span2s : ℕ → ℕ × ℕ) (h2 : Bool)
    (lab : ℕ → ℕ) (nl : ℕ) :
    ∀ l : List ℕ, (∀ i ∈ l, (toks i).length ≤ msl) →
      tokenizeLoop msl toks w2t span1s span2s h2 lab nl l =
        some ⟨(l.filter (keepSample w2t span1s span2s h2)).map
                (fun i => padVec msl (toks i)),
              (l.filter (keepSample w2t span1s span2s h2)).map
                (fun i => spanMask msl (resolvedOf w2t span1s span2s h2 i).1
                  (resolvedOf w2t span1s span2s h2 i).2.1),
              (match h2 with
               | true => (l.filter (keepSample w2t span1s span2s h2)).map
                   (fun i =>
                     match (resolvedOf w2t span1s span2s h2 i).2.2 with
                     | some se => spanMask msl se.1 se.2
                     | none => [])
               | false => []),
              (l.filter (keepSample w2t span1s span2s h2)).map
                (fun i => labelOneHot nl (lab i))⟩ := by
  intro l
  induction l with
  | nil =>
    intro _
    cases h2 <;> rfl
  | cons i rest ih =>
    intro hlen
    have hrest := ih (fun j hj => hlen j (by simp [hj]))
    rw [tokenizeLoop_cons, padTarget_some msl (toks i) (hlen i (by simp))]
    rcases hres : resolveSpans w2t (span1s i) (span2s i) h2 with _ | ⟨s1, e1, sp2⟩
    · have hkeep : keepSample w2t span1s span2s h2 i = false := by
        simp [keepSample, hres]
      cases h2 <;> simp [hrest, List.filter_cons, hkeep]
    · have hkeep : keepSample w2t span1s span2s h2 i = true := by
        simp [keepSample, hres]
      have hresolved : resolvedOf w2t span1s span2s h2 i = (s1, e1, sp2) := by
        simp [resolvedOf, hres]
      have hsp2 := resolveSpans_sp2 w2t (span1s i) (span2s i) h2 s1 e1 sp2 hres
      cases h2
      · cases sp2 with
        | some se => simp at hsp2
        | none => simp [hrest, List.filter_cons, hkeep, hresolved]
      · cases sp2 with
        | none => simp at hsp2
        | some se => simp [hrest, List.filter_cons, hkeep, hresolved]

/-- Claim C6: for every input sample of tokenize_jiant_dataset, if any
required word-to-token boundary lookup returns None (two lookups for a
single-span sample, all four for a two-span sample), that sample is
silently excluded from every output sequence: no error is raised (the
call still returns a value) and no other sample is affected (each
output sequence is exactly the image of the retained samples, in
order); consequently the number of aligned samples is at most the
number of input samples. -/
theorem C6_silent_drop (msl n : ℕ) (toks : ℕ → List ℕ)
    (w2t : ℕ → ℕ → Option (ℕ × ℕ)) (span1s span2s : ℕ → ℕ × ℕ)
    (hasSpan2 : Bool) (lab : ℕ → ℕ) (nl : ℕ)
    (hlen : ∀ i, (toks i).length ≤ msl) :
    ∃ out, tokenize_jiant_dataset msl n toks w2t span1s span2s hasSpan2 lab nl =
        some out ∧
      out.input_ids =
        ((List.range n).filter (keepSample w2t span1s span2s hasSpan2)).map
          (fun i => padVec msl (toks i)) ∧
      out.labels =
        ((List.range n).filter (keepSample w2t span1s span2s hasSpan2)).map
          (fun i => labelOneHot nl (lab i)) ∧
      out.span1_masks.length = out.input_ids.length ∧
      out.input_ids.length ≤ n ∧
      (∀ i, keepSample w2t span1s span2s true i =
        ((wordToTokensApi w2t (span1s i).1).isSome &&
         (wordToTokensApi w2t (span1s i).2).isSome &&
         (wordToTokensApi w2t (span2s i).1).isSome &&
         (wordToTokensApi w2t (span2s i).2).isSome)) ∧
      (∀ i, keepSample w2t span1s span2s false i =
        ((wordToTokensApi w2t (span1s i).1).isSome &&
         (wordToTokensApi w2t (span1s i).2).isSome)) := by
  have hchar := tokenizeLoop_eq msl toks w2t span1s span2s hasSpan2 lab nl
    (List.range n) (fun i _ => hlen i)
  refine ⟨_, hchar, rfl, rfl, by simp, ?_,
    keepSample_true w2t span1s span2s, keepSample_false w2t span1s span2s⟩
  have h1 := List.length_filter_le (keepSample w2t span1s span2s hasSpan2)
    (List.range n)
  simpa using h1

/-- Witness for C6: two single-span samples over a lookup table that
resolves only word 0, with sample 1 referring to word 1; sample 1 is
silently dropped and sample 0 is kept unchanged. -/
theorem C6_silent_drop_witness :
    ∃ out, tokenize_jiant_dataset 3 2 (fun _ => [5])
        (fun _ w => if w = 0 then some (0, 1) else none)
        (fun i => (0, i)) (fun _ => (0, 0)) false (fun _ => 0) 2 = some out ∧
      out.input_ids = [[5, 0, 0]] ∧ out.input_ids.length ≤ 2 := by
  obtain ⟨out, h1, h2, h3, h4, h5, h6, h7⟩ := C6_silent_drop 3 2 (fun _ => [5])
    (fun _ w => if w = 0 then some (0, 1) else none) (fun i => (0, i))
    (fun _ => (0, 0)) false (fun _ => 0) 2 (fun _ => by show (1 : ℕ) ≤ 3; decide)
  exact ⟨out, h1, h2.trans (by decide), h5⟩

/-- Claim C10: tokenize_jiant_dataset tokenizes with a hard-coded
maximum length of 128 regardless of its max_seq_length parameter (the
tokenizer output has length 128; boundary lookups stay within the 128
token positions).  For max_seq_length greater than 128, every returned
input-id vector and mask has length max_seq_length but is zero/false
at every position at index 128 and above; for max_seq_length less
than 128 the padding assignment target[:tokens.shape[0]] = tokens
raises a size-mismatch error (modelled by the none result) as soon as
there is at least one sample. -/
theorem C10_hardcoded_max_length (msl n : ℕ) (toks : ℕ → List ℕ)
    (w2t : ℕ → ℕ → Option (ℕ × ℕ)) (span1s span2s : ℕ → ℕ × ℕ)
    (hasSpan2 : Bool) (lab : ℕ → ℕ) (nl : ℕ)
    (htok : ∀ i, (toks i).length = 128)
    (hb : ∀ b w p, w2t b w = some p → p.2 ≤ 128) :
    (128 < msl →
      ∃ out, tokenize_jiant_dataset msl n toks w2t span1s span2s hasSpan2 lab nl =
          some out ∧
        (∀ v ∈ out.input_ids, v.length = msl ∧
          ∀ p, 128 ≤ p → v.getD p 0 = 0) ∧
        (∀ mk ∈ out.span1_masks, mk.length = msl ∧
          ∀ p, 128 ≤ p → mk.getD p false = false) ∧
        (∀ mk ∈ out.span2_masks, mk.length = msl ∧
          ∀ p, 128 ≤ p → mk.getD p false = false)) ∧
    (msl < 128 → 0 < n →
      tokenize_jiant_dataset msl n toks w2t span1s span2s hasSpan2 lab nl =
        none) := by
  constructor
  · intro hgt
    have hchar := tokenizeLoop_eq msl toks w2t span1s span2s hasSpan2 lab nl
      (List.range n) (fun i _ => by rw [htok i]; omega)
    refine ⟨_, hchar, ?_, ?_, ?_⟩
    · intro v hv
      obtain ⟨i, hi, rfl⟩ := List.mem_map.1 hv
      exact ⟨padVec_length msl (toks i) (by rw [htok i]; omega),
        fun p hp => padVec_getD_zero msl (toks i) p (by rw [htok i]; omega)⟩
    · intro mk hmk
      obtain ⟨i, hi, rfl⟩ := List.mem_map.1 hmk
      have hkeep := (List.mem_filter.1 hi).2
      rw [keepSample] at hkeep
      obtain ⟨⟨s1, e1, sp2⟩, hres⟩ := Option.isSome_iff_exists.1 hkeep
      have hresolved : resolvedOf w2t span1s span2s hasSpan2 i = (s1, e1, sp2) := by
        simp [resolvedOf, hres]
      have hbound := resolveSpans_bound w2t hb (span1s i) (span2s i) hasSpan2
        s1 e1 sp2 hres
      rw [hresolved]
      exact ⟨spanMask_length msl s1 e1,
        fun p hp => spanMask_getD_false msl s1 e1 p (le_trans hbound.1 hp)⟩
    · cases hasSpan2 with
      | false => intro mk hmk; simp at hmk
      | true =>
        intro mk hmk
        obtain ⟨i, hi, rfl⟩ := List.mem_map.1 hmk
        have hkeep := (List.mem_filter.1 hi).2
        rw [keepSample] at hkeep
        obtain ⟨⟨s1, e1, sp2⟩, hres⟩ := Option.isSome_iff_exists.1 hkeep
        have hresolved : resolvedOf w2t span1s span2s true i = (s1, e1, sp2) := by
          simp [resolvedOf, hres]
        have hsp2 := resolveSpans_sp2 w2t (span1s i) (span2s i) true s1 e1 sp2 hres
        rcases sp2 with _ | ⟨s2, e2⟩
        · simp at hsp2
        · have hbound := (resolveSpans_bound w2t hb (span1s i) (span2s i) true
            s1 e1 (some (s2, e2)) hres).2 s2 e2 rfl
          rw [hresolved]
          exact ⟨spanMask_length msl s2 e2,
            fun p hp => spanMask_getD_false msl s2 e2 p (le_trans hbound hp)⟩
  · intro hlt hn
    obtain ⟨k, rfl⟩ := Nat.exists_eq_succ_of_ne_zero (Nat.pos_iff_ne_zero.1 hn)
    show tokenizeLoop msl toks w2t span1s span2s hasSpan2 lab nl
      (List.range (k + 1)) = none
    rw [List.range_succ_eq_map, tokenizeLoop_cons,
      padTarget_none msl (toks 0) (by rw [htok 0]; omega)]

/-- Witness for C10: a single sample whose tokenization has length 128
(the hard-coded tokenizer maximum); with max_seq_length 130 the call
succeeds, with max_seq_length 5 it raises. -/
theorem C10_hardcoded_max_length_witness :
    (∃ out, tokenize_jiant_dataset 130 1 (fun _ => List.replicate 128 1)
        (fun _ w => if w ≤ 1 then some (1, 2) else none) (fun _ => (0, 1))
        (fun _ => (0, 0)) false (fun _ => 0) 2 = some out) ∧
    tokenize_jiant_dataset 5 1 (fun _ => List.replicate 128 1)
      (fun _ w => if w ≤ 1 then some (1, 2) else none) (fun _ => (0, 1))
      (fun _ => (0, 0)) false (fun _ => 0) 2 = none := by
  have hb : ∀ (b w : ℕ) (p : ℕ × ℕ),
      (fun (_ w : ℕ) => if w ≤ 1 then some ((1 : ℕ), (2 : ℕ)) else none) b w =
        some p → p.2 ≤ 128 := by
    intro b w p h
    dsimp only at h
    by_cases hw : w ≤ 1
    · rw [if_pos hw] at h
      cases h
      decide
    · rw [if_neg hw] at h
      cases h
  constructor
  · obtain ⟨out, h1, _⟩ := (C10_hardcoded_max_length 130 1
      (fun _ => List.replicate 128 1)
      (fun _ w => if w ≤ 1 then some (1, 2) else none) (fun _ => (0, 1))
      (fun _ => (0, 0)) false (fun _ => 0) 2
      (fun _ => List.length_replicate 128 1) hb).1 (by decide)
    exact ⟨out, h1⟩
  · exact (C10_hardcoded_max_length 5 1 (fun _ => List.replicate 128 1)
      (fun _ w => if w ≤ 1 then some (1, 2) else none) (fun _ => (0, 1))
      (fun _ => (0, 0)) false (fun _ => 0) 2
      (fun _ => List.length_replicate 128 1) hb).2 (by decide) (by decide)

set_option maxRecDepth 8192 in
/-- Claim C2: the span mask of a retained sample is a boolean vector
of the configured fixed length, true exactly between the resolved
token boundaries; but the boundaries are NOT resolved under sample
the own subword tokenization of sample i: the source calls
encodings.word_to_tokens(w) with no batch index, which the
transformers BatchEncoding API resolves against the tokenization of
sample 0, so the mask of sample 1 below is spanMask 128 1 3 (the
boundaries of sample 0 for words 0-1) although the own tokenization
of sample 1 puts
words 0-1 at token boundaries 1 and 5. -/
theorem C2_batch_index_bug :
    (tokenize_jiant_dataset 128 2 (fun _ => List.replicate 128 0)
        (fun b w =>
          if b = 0 then
            (if w = 0 then some (1, 2) else if w = 1 then some (2, 3) else none)
          else
            (if w = 0 then some (1, 3) else if w = 1 then some (3, 5) else none))
        (fun _ => (0, 1)) (fun _ => (0, 0)) false (fun _ => 0) 2).map
      (fun o => o.span1_masks.getD 1 []) = some (spanMask 128 1 3) ∧
    resolveSpanOwn
      (fun b w =>
        if b = 0 then
          (if w = 0 then some (1, 2) else if w = 1 then some (2, 3) else none)
        else
          (if w = 0 then some (1, 3) else if w = 1 then some (3, 5) else none))
      1 (0, 1) = some (1, 5) ∧
    spanMask 128 1 3 ≠ spanMask 128 1 5 :=
  ⟨by decide, by decide, by decide⟩

/-! ### Helper lemmas: the probing sweep -/

lemma probing_foldl (metrics : ℕ → ℚ × ℚ × ℚ) :
    ∀ (layers : List ℕ) (rs : List (ℕ × (ℚ × ℚ × ℚ)))
      (f : Option (List (ℕ × (ℚ × ℚ × ℚ)))),
      (∀ l ∈ layers, l ∉ rs.map Prod.fst) → layers.Nodup →
      (layers.foldl (probingStep true metrics) ⟨rs, f⟩).results =
          rs ++ layers.map (fun l => (l, metrics l)) ∧
      (layers.foldl (probingStep true metrics) ⟨rs, f⟩).file =
          (if layers.isEmpty then f
           else some (rs ++ layers.map (fun l => (l, metrics l)))) := by
  intro layers
  induction layers with
  | nil => intro rs f _ _; simp
  | cons l ls ih =>
    intro rs f hmem hnd
    have hany : rs.any (fun p => p.1 == l) = false := by
      rw [List.any_eq_false]
      intro p hp
      simp only [beq_iff_eq]
      intro heq
      exact hmem l (by simp) (by exact List.mem_map.2 ⟨p, hp, heq⟩)
    have hstep : probingStep true metrics ⟨rs, f⟩ l =
        ⟨rs ++ [(l, metrics l)], some (rs ++ [(l, metrics l)])⟩ := by
      simp [probingStep, dictInsert, hany]
    have hmem2 : ∀ x ∈ ls, x ∉ (rs ++ [(l, metrics l)]).map Prod.fst := by
      intro x hx
      simp only [List.map_append, List.mem_append, List.map_cons]
      rintro (hin | hin)
      · exact hmem x (by simp [hx]) hin
      · have hxl : x = l := by simpa using hin
        exact (List.nodup_cons.1 hnd).1 (hxl ▸ hx)
    obtain ⟨hres, hfile⟩ := ih (rs ++ [(l, metrics l)])
      (some (rs ++ [(l, metrics l)])) hmem2 (List.nodup_cons.1 hnd).2
    simp only [List.foldl_cons, hstep]
    refine ⟨by rw [hres]; simp, ?_⟩
    rw [hfile]
    rcases ls with _ | ⟨x, xs⟩
    · simp
    · simp

/-- Claim C8: in probing, when a results path is configured, after
each layer of the sweep completes the results file is rewritten in
full (mode "w", not append) with one entry (loss, accuracy, f1_score)
per completed layer, keyed by layer depth; after a completed sweep
over distinct layers the persisted file holds exactly those layers in
order (for [1,2,3]: exactly the keys 1, 2, 3), and after a crash that
stops the sweep after any number of completed layers the file still
reflects exactly all previously completed layers. -/
theorem C8_results_persistence (metrics : ℕ → ℚ × ℚ × ℚ) (layers : List ℕ)
    (hnd : layers.Nodup) :
    ((probing true metrics layers).results =
       layers.map (fun l => (l, metrics l))) ∧
    ((probing true metrics layers).file =
       (if layers.isEmpty then none
        else some (layers.map (fun l => (l, metrics l))))) ∧
    (∀ k, (probing true metrics (layers.take k)).file =
       (if (layers.take k).isEmpty then none
        else some ((layers.take k).map (fun l => (l, metrics l))))) ∧
    ((probing true metrics [1, 2, 3]).file =
       some [(1, metrics 1), (2, metrics 2), (3, metrics 3)]) := by
  have hmain := probing_foldl metrics layers [] none (by simp) hnd
  refine ⟨by simpa using hmain.1, by simpa using hmain.2, ?_, ?_⟩
  · intro k
    have h := probing_foldl metrics (layers.take k) [] none (by simp)
      (List.Nodup.sublist (List.take_sublist k layers) hnd)
    simpa using h.2
  · have h := probing_foldl metrics [1, 2, 3] [] none (by simp) (by decide)
    simpa using h.2

/-- Witness for C8 at the concrete sweep over layers [1, 2, 3]. -/
theorem C8_results_persistence_witness :
    (probing true (fun _ => (0, 0, 0)) [1, 2, 3]).file =
      some [(1, (0, 0, 0)), (2, (0, 0, 0)), (3, (0, 0, 0))] :=
  (C8_results_persistence (fun _ => (0, 0, 0)) [1, 2, 3] (by decide)).2.2.2
